import Mathlib

/-!
Shallow embedding of the mosdns fork (xiac520/mosdns) request-pipeline
plugins, and verification of the specification's claims about them.

Source files embedded here:
* `plugin/executable/cache/cache.go` (cache stage: `getMsgKey`, `Cache.Exec`,
  `Cache.doLazyUpdate`);
* the forward plugin (package `fastforward`: `Forward.Exec`,
  `Forward.getUpstream`, `Forward.handleResponse`);
* the fallback plugin (package `fallback`: `doFallback`);
* the mark plugin (package `mark`: `newMarker`, `mark.Exec`, `mark.Match`);
* `plugin/executable/redirect/redirect.go` (`Redirect.Exec`).

Machine integers are modelled as `Nat` with explicit reductions `% 2 ^ w`
where the Go code can overflow; Go byte slices are `List Nat`; Go strings
are `List Char` (DNS names and configuration strings are treated
byte-per-character, which is faithful for the ASCII data involved here).
-/

namespace Mosdns

/-- A DNS question (`dns.Question` from miekg/dns): owner name, query type
and query class. -/
structure Question where
  name : List Char
  qtype : Nat
  qclass : Nat
deriving DecidableEq, Repr

/-- A resource record, with just enough structure for the claims: the
redirect stage prepends a `dns.CNAME` record (owner name, TTL, class,
target); every other record is opaque payload. -/
inductive RR where
  | cname (owner : List Char) (ttl : Nat) (qclass : Nat) (target : List Char)
  | plain (payload : Nat)
deriving DecidableEq, Repr

/-- A DNS message (`dns.Msg`): transaction id (uint16), question section,
answer section. -/
structure Msg where
  id : Nat
  question : List Question
  answer : List RR
deriving DecidableEq, Repr

/-! ## Cache stage: cache key (`getMsgKey`, cache.go lines 244-249)

The Go source reads:
```
key := make([]byte, 16)
binary.BigEndian.PutUint64(key[:8], uint64(q.Id))
copy(key[8:], q...   -- the file is cut mid-line here
```
-/

/-- `binary.BigEndian.PutUint64`: the eight big-endian bytes of a uint64. -/
def beUint64 (n : Nat) : List Nat :=
  [n / 2 ^ 56 % 256, n / 2 ^ 48 % 256, n / 2 ^ 40 % 256, n / 2 ^ 32 % 256,
   n / 2 ^ 24 % 256, n / 2 ^ 16 % 256, n / 2 ^ 8 % 256, n % 256]

/-- Go's builtin `copy(dst, src)`: overwrites the first
`min (length src) (length dst)` elements of `dst` with those of `src`. -/
def goCopy (dst src : List Nat) : List Nat :=
  src.take dst.length ++ dst.drop src.length

/-- The byte string the truncated `copy(key[8:], q...` call reads from.
Modelled from the spec: the source file is cut mid-line at cache.go:249, and
the spec says the key is "derived deterministically from the question name,
type, and class", so the tail of the key is taken from the question name.
(The settled claim below depends only on the first eight key bytes, which
are fully visible in the source.) -/
def questionNameBytes (q : Msg) : List Nat :=
  match q.question with
  | [] => []
  | qu :: _ => qu.name.map Char.toNat

/-- `getMsgKey` (cache.go lines 244-249): a 16-byte key whose first eight
bytes are `binary.BigEndian.PutUint64(key[:8], uint64(q.Id))` and whose
last eight bytes receive `copy(key[8:], ...)` from the question name. -/
def getMsgKey (q : Msg) : List Nat :=
  beUint64 (q.id % 2 ^ 64) ++ goCopy (List.replicate 8 0) (questionNameBytes q)

/-- The single question `example.com. A IN` used as the failing input. -/
def exampleQuestion : Question :=
  ⟨['e', 'x', 'a', 'm', 'p', 'l', 'e', '.', 'c', 'o', 'm', '.'], 1, 1⟩

/-- C1: the cache key is NOT deterministic in the question alone.  Two
query messages carrying the identical single question `example.com. A IN`
but transaction ids 1 and 2 receive different 16-byte keys, because
cache.go:248 writes `uint64(q.Id)` into the first eight key bytes.  This
contradicts the claim (and the spec's data model) that the key depends
only on the question name, type and class. -/
theorem getMsgKey_id_dependent :
    (Msg.mk 1 [exampleQuestion] []).question = (Msg.mk 2 [exampleQuestion] []).question ∧
    getMsgKey (Msg.mk 1 [exampleQuestion] []) ≠ getMsgKey (Msg.mk 2 [exampleQuestion] []) := by
  constructor
  · rfl
  · decide

/-! ## Mark plugin (package `mark`)

`newMarker` splits the configuration string with
`strings.FieldsFunc(s, func(r rune) bool { return r == ' ' })` and parses
each field with `strconv.ParseUint(ms, 0, 32)`.  `mark.Exec` sets every
configured mark on the query context; `mark.Match` reports whether the
context carries any configured mark.
-/

/-- `strings.FieldsFunc`: split at characters satisfying `p`, dropping
empty fields.  `acc` holds the current field, reversed. -/
def fieldsFuncAux (p : Char → Bool) : List Char → List Char → List (List Char)
  | [], acc => if acc = [] then [] else [acc.reverse]
  | c :: rest, acc =>
    if p c then
      if acc = [] then fieldsFuncAux p rest []
      else acc.reverse :: fieldsFuncAux p rest []
    else fieldsFuncAux p rest (c :: acc)

/-- `strings.FieldsFunc(s, p)`. -/
def fieldsFunc (p : Char → Bool) (s : List Char) : List (List Char) :=
  fieldsFuncAux p s []

/-- `lower(c)` from Go's strconv: force the ASCII lowercase bit. -/
def goLower (c : Nat) : Nat := c ||| 32

/-- `2^32 - 1`, the `maxVal` of `strconv.ParseUint(_, _, 32)`. -/
def maxUint32 : Nat := 2 ^ 32 - 1

/-- The digit-accumulation loop of `strconv.ParseUint` called with base
argument 0 (so underscores are tolerated here and validated afterwards).
Returns the accumulated value and whether an underscore was seen; `none`
is a syntax or range error. -/
def parseDigits (base : Nat) : List Nat → Nat → Bool → Option (Nat × Bool)
  | [], n, us => some (n, us)
  | c :: rest, n, us =>
    if c = 95 then parseDigits base rest n true
    else
      match
        (if 48 ≤ c ∧ c ≤ 57 then some (c - 48)
         else if 97 ≤ goLower c ∧ goLower c ≤ 122 then some (goLower c - 87)
         else none : Option Nat) with
      | none => none
      | some d =>
        if base ≤ d then none
        else
          if maxUint32 < n * base + d then none
          else parseDigits base rest (n * base + d) us

/-- The `saw` state of strconv's `underscoreOK`. -/
inductive Saw where
  | start
  | digit
  | under
  | other
deriving DecidableEq

/-- The scanning loop of strconv's `underscoreOK`: an underscore may only
follow a digit (or the base prefix) and may not end the literal. -/
def underscoreLoop (hex : Bool) : List Nat → Saw → Bool
  | [], saw => decide (saw ≠ Saw.under)
  | c :: rest, saw =>
    if (48 ≤ c ∧ c ≤ 57) ∨ (hex ∧ 97 ≤ goLower c ∧ goLower c ≤ 102) then
      underscoreLoop hex rest Saw.digit
    else if c = 95 then
      if saw ≠ Saw.digit then false else underscoreLoop hex rest Saw.under
    else if saw = Saw.under then false
    else underscoreLoop hex rest Saw.other

/-- strconv's `underscoreOK s`: strip an optional sign, treat a
`0b`/`0o`/`0x` prefix as a digit, then run the scanning loop. -/
def underscoreOK (s : List Nat) : Bool :=
  let s1 := match s with
    | c :: rest => if c = 45 ∨ c = 43 then rest else c :: rest
    | [] => []
  match s1 with
  | c0 :: c1 :: rest =>
    if c0 = 48 ∧ (goLower c1 = 98 ∨ goLower c1 = 111 ∨ goLower c1 = 120) then
      underscoreLoop (goLower c1 = 120) rest Saw.digit
    else underscoreLoop false (c0 :: c1 :: rest) Saw.start
  | _ => underscoreLoop false s1 Saw.start

/-- `strconv.ParseUint(tok, 0, 32)`: base inference from the `0b`/`0o`/`0x`
prefix (a bare leading `0` means octal), digit accumulation bounded by
`2^32 - 1`, and the underscore-placement check.  `none` is a parse error. -/
def parseUint0_32 (tok : List Char) : Option Nat :=
  let s0 := tok.map Char.toNat
  match s0 with
  | [] => none
  | c0 :: rest =>
    let bd : Nat × List Nat :=
      if c0 = 48 then
        match rest with
        | c1 :: c2 :: rest2 =>
          if goLower c1 = 98 then (2, c2 :: rest2)
          else if goLower c1 = 111 then (8, c2 :: rest2)
          else if goLower c1 = 120 then (16, c2 :: rest2)
          else (8, c1 :: c2 :: rest2)
        | [c1] => (8, [c1])
        | [] => (8, [])
      else (10, c0 :: rest)
    match parseDigits bd.1 bd.2 0 false with
    | none => none
    | some (n, us) => if us ∧ ¬ underscoreOK s0 then none else some n

/-- The field loop of `newMarker`: parse every field in order, aborting
with the first `strconv.ParseUint` failure. -/
def parseMarks : List (List Char) → Option (List Nat)
  | [] => some []
  | t :: ts =>
    match parseUint0_32 t with
    | none => none
    | some n =>
      match parseMarks ts with
      | none => none
      | some vs => some (n :: vs)

/-- `newMarker` (package `mark`): split the configuration string at space
characters only (`strings.FieldsFunc` with `r == ' '`), then parse each
field as a uint32; the resulting mark stage carries the parsed integers in
order. -/
def newMarker (s : List Char) : Option (List Nat) :=
  parseMarks (fieldsFunc (fun c => c = ' ') s)

/-- Splitting at whitespace, following the claim's words ("a
whitespace-separated list of tokens"): Go's `strings.Fields` splits at
`unicode.IsSpace` characters, here the ASCII ones.  This is the spec-side
definition the source's space-only split is compared against. -/
def specWhitespaceFields (s : List Char) : List (List Char) :=
  fieldsFunc (fun c => c = ' ' ∨ c = '\t' ∨ c = '\n' ∨
    c = Char.ofNat 11 ∨ c = Char.ofNat 12 ∨ c = '\r') s

/-- Query context mark storage.  Modelled from the spec: the
`query_context` package is not under src/; the spec's data model says the
context holds "a set of integer marks", so `SetMark` inserts into the set
and `HasMark` tests membership. -/
structure QCtx where
  marks : List Nat
deriving DecidableEq, Repr

/-- Modelled from the spec: `query_context.Context.SetMark` adds a mark to
the context's set of marks. -/
def setMark (qc : QCtx) (u : Nat) : QCtx :=
  if u ∈ qc.marks then qc else ⟨qc.marks ++ [u]⟩

/-- Modelled from the spec: `query_context.Context.HasMark` tests whether
the context carries the mark. -/
def hasMark (qc : QCtx) (u : Nat) : Bool :=
  decide (u ∈ qc.marks)

/-- `mark.Exec`: set every configured mark on the context. -/
def markExec (ms : List Nat) (qc : QCtx) : QCtx :=
  ms.foldl setMark qc

/-- `mark.Match`: return true on the first configured mark the context
carries, false if there is none. -/
def markMatch (ms : List Nat) (qc : QCtx) : Bool :=
  ms.any (fun u => hasMark qc u)

theorem mem_setMark (qc : QCtx) (u v : Nat) :
    v ∈ (setMark qc u).marks ↔ v ∈ qc.marks ∨ v = u := by
  by_cases h : u ∈ qc.marks
  · simp only [setMark, if_pos h]
    constructor
    · exact Or.inl
    · rintro (hv | rfl)
      · exact hv
      · exact h
  · simp [setMark, if_neg h]

theorem mem_markExec (ms : List Nat) (qc : QCtx) (v : Nat) :
    v ∈ (markExec ms qc).marks ↔ v ∈ qc.marks ∨ v ∈ ms := by
  induction ms generalizing qc with
  | nil => simp [markExec]
  | cons u ms ih =>
    show v ∈ (markExec ms (setMark qc u)).marks ↔ _
    rw [ih, mem_setMark]
    constructor
    · rintro ((h | rfl) | h)
      · exact Or.inl h
      · exact Or.inr (List.mem_cons_self _ _)
      · exact Or.inr (List.mem_cons_of_mem _ h)
    · rintro (h | h)
      · exact Or.inl (Or.inl h)
      · rcases List.mem_cons.mp h with rfl | h
        · exact Or.inl (Or.inr rfl)
        · exact Or.inr h

theorem parseMarks_some_iff (ts : List (List Char)) (vs : List Nat) :
    parseMarks ts = some vs ↔
      List.Forall₂ (fun t v => parseUint0_32 t = some v) ts vs := by
  induction ts generalizing vs with
  | nil => cases vs <;> simp [parseMarks]
  | cons t ts ih =>
    constructor
    · intro h
      simp only [parseMarks] at h
      cases hp : parseUint0_32 t with
      | none => rw [hp] at h; exact absurd h (by simp)
      | some n =>
        rw [hp] at h
        cases hm : parseMarks ts with
        | none => rw [hm] at h; exact absurd h (by simp)
        | some ws =>
          rw [hm] at h
          have hvs := Option.some.inj h
          subst hvs
          exact List.Forall₂.cons hp ((ih ws).mp hm)
    · intro h
      cases h with
      | cons h1 h2 =>
        simp only [parseMarks, h1, (ih _).mpr h2]

theorem parseMarks_none_iff (ts : List (List Char)) :
    parseMarks ts = none ↔ ∃ t ∈ ts, parseUint0_32 t = none := by
  induction ts with
  | nil => simp [parseMarks]
  | cons t ts ih =>
    cases hp : parseUint0_32 t with
    | none =>
      simp only [parseMarks, hp]
      constructor
      · intro _
        exact ⟨t, List.mem_cons_self _ _, hp⟩
      · intro _
        trivial
    | some n =>
      cases hm : parseMarks ts with
      | none =>
        simp only [parseMarks, hp, hm]
        constructor
        · intro _
          obtain ⟨u, hu, hpu⟩ := ih.mp hm
          exact ⟨u, List.mem_cons_of_mem _ hu, hpu⟩
        · intro _
          trivial
      | some ws =>
        simp only [parseMarks, hp, hm]
        constructor
        · intro h
          exact absurd h (by simp)
        · rintro ⟨u, hu, hpu⟩
          rcases List.mem_cons.mp hu with rfl | hu
          · rw [hp] at hpu
            exact absurd hpu (by simp)
          · have := ih.mpr ⟨u, hu, hpu⟩
            rw [hm] at this
            exact absurd this (by simp)

/-- C9 counterexample: the configuration string `"1\t2"` IS a
whitespace-separated list of tokens (`"1"` and `"2"`), each a valid Go
uint32 literal, yet `newMarker` fails on it: the source splits only at
`' '` (space), so the whole string becomes one field and
`strconv.ParseUint` rejects the embedded tab. -/
theorem newMarker_whitespace_counterexample :
    specWhitespaceFields ['1', '\t', '2'] = [['1'], ['2']] ∧
    parseUint0_32 ['1'] = some 1 ∧
    parseUint0_32 ['2'] = some 2 ∧
    newMarker ['1', '\t', '2'] = none := by
  decide

/-- C9 (amended: with "whitespace-separated" weakened to "space-separated",
matching `FieldsFunc(s, r == ' ')` in the source): `newMarker` succeeds
exactly when every space-separated field parses as an unsigned 32-bit Go
integer literal, and on success the mark stage carries exactly the parsed
integers in field order. -/
theorem newMarker_space_fields (s : List Char) :
    (∀ vs, newMarker s = some vs ↔
      List.Forall₂ (fun t v => parseUint0_32 t = some v)
        (fieldsFunc (fun c => c = ' ') s) vs) ∧
    (newMarker s = none ↔
      ∃ t ∈ fieldsFunc (fun c => c = ' ') s, parseUint0_32 t = none) :=
  ⟨fun vs => parseMarks_some_iff _ vs, parseMarks_none_iff _⟩

/-- C10: a mark stage built from a non-empty mark list satisfies the
set-then-test round trip: `Exec` sets every configured mark, afterwards
`Match` returns true, and in general `Match` returns true iff the context
carries at least one configured mark. -/
theorem mark_exec_then_match (ms : List Nat) (qc : QCtx) (h : ms ≠ []) :
    (∀ u ∈ ms, hasMark (markExec ms qc) u = true) ∧
    markMatch ms (markExec ms qc) = true ∧
    (∀ qc2 : QCtx, markMatch ms qc2 = true ↔ ∃ u ∈ ms, hasMark qc2 u = true) := by
  have hmem : ∀ u ∈ ms, hasMark (markExec ms qc) u = true := by
    intro u hu
    simp only [hasMark, decide_eq_true_eq, mem_markExec]
    exact Or.inr hu
  refine ⟨hmem, ?_, ?_⟩
  · obtain ⟨u, ms2, rfl⟩ := List.exists_cons_of_ne_nil h
    rw [markMatch, List.any_eq_true]
    exact ⟨u, List.mem_cons_self _ _, hmem u (List.mem_cons_self _ _)⟩
  · intro qc2
    rw [markMatch, List.any_eq_true]

theorem mark_exec_then_match_witness :
    [(7 : Nat)] ≠ [] ∧ markMatch [7] (markExec [7] ⟨[]⟩) = true :=
  ⟨by decide, (mark_exec_then_match [7] ⟨[]⟩ (by decide)).2.1⟩

/-! ## Fallback plugin (package `fallback`, `doFallback`)

`doFallback` runs a primary and a secondary goroutine.  Each goroutine
sends at most one value on the buffered channel `respChan`: the primary
sends its response `r` on success and `nil` on failure (error or no
response); the secondary — unless it returns early because `primDone`
fired first while not in always-standby mode — sends its response or
`nil` likewise.  The parent then receives twice, delivering the first
non-nil value (`qCtx.SetResponse(r); return nil`) and returning
`ErrFailed` if both receives yield nil.

Goroutine interleaving is modelled by explicit parameters: `tPrim` is the
time the primary goroutine finishes (closing `primDone` on success or
`primFailed` on failure), `threshold` is `fastFallbackDuration`, `tie`
resolves Go's random select choice when `primDone` and the timer fire
simultaneously, and `secondFirst` says whether the secondary's send
reaches `respChan` before the primary's.
-/

/-- `ErrFailed` (fallback source, line 89). -/
def errFailedMsg : String := "no valid response from both primary and secondary"

/-- The two-iteration receive loop at the bottom of `doFallback`: receive
from `respChan` (a drained closed channel yields nil), skip nil values,
deliver the first non-nil response.  `none` means the loop fell through
to `return ErrFailed`. -/
def fallbackLoop : Nat → List (Option Msg) → Option Msg
  | 0, _ => none
  | Nat.succ n, [] => fallbackLoop n []
  | Nat.succ n, none :: rest => fallbackLoop n rest
  | Nat.succ _, some r :: _ => some r

/-- The secondary goroutine's guarding select (source lines 138-145): in
always-standby mode the secondary always runs; otherwise it waits for the
first of `primDone` (primary succeeded at `tPrim`; the goroutine returns
without running the secondary), `primFailed` (primary failed at `tPrim`)
or the `threshold` timer, and runs the secondary in the latter two cases.
`tie` stands for Go's random pick when `primDone` and the timer are ready
simultaneously. -/
def secondaryLaunches (alwaysStandby primarySucceeds : Bool)
    (tPrim threshold : Nat) (tie : Bool) : Bool :=
  if alwaysStandby then true
  else if primarySucceeds then
    if tPrim < threshold then false
    else if threshold < tPrim then true
    else tie
  else true

/-- The sequence of values sent on `respChan`, in send order: only the
primary's value when the secondary returned early, otherwise both values
in an order fixed by the schedule. -/
def fallbackSends (launches : Bool) (pOut sOut : Option Msg)
    (secondFirst : Bool) : List (Option Msg) :=
  if launches then
    if secondFirst then [sOut, pOut] else [pOut, sOut]
  else [pOut]

/-- The outcome of one `doFallback` call: the response set on the caller's
query context (if any), the returned error (if any), and whether the
secondary executable was invoked. -/
structure FallbackRun where
  resp : Option Msg
  err : Option String
  secondaryInvoked : Bool
deriving DecidableEq, Repr

/-- `doFallback` (fallback source lines 98-189), as a function of the two
branch outcomes and the schedule parameters.  `pOut` is the primary's
`qCtxP.R()` when `primary.Exec` returned without error (`none` collapses
both an `Exec` error and a nil response, exactly as lines 120-127 do);
`sOut` likewise for the secondary. -/
def doFallback (alwaysStandby : Bool) (pOut sOut : Option Msg)
    (tPrim threshold : Nat) (tie secondFirst : Bool) : FallbackRun :=
  let launches := secondaryLaunches alwaysStandby pOut.isSome tPrim threshold tie
  match fallbackLoop 2 (fallbackSends launches pOut sOut secondFirst) with
  | some r => ⟨some r, none, launches⟩
  | none => ⟨none, some errFailedMsg, launches⟩

/-- The first non-nil value of a send sequence. -/
def firstSome (l : List (Option Msg)) : Option Msg :=
  (l.filterMap id).head?

theorem fallbackLoop_pair (a b : Option Msg) :
    fallbackLoop 2 [a, b] = firstSome [a, b] := by
  cases a <;> cases b <;> rfl

theorem fallbackLoop_single (a : Option Msg) :
    fallbackLoop 2 [a] = firstSome [a] := by
  cases a <;> rfl

/-- C4: `doFallback` delivers exactly one outcome per request: the
response it sets on the query context is the first non-nil value either
branch produced (and then it returns nil), and when neither branch
produced a usable response it sets no response and returns the error
"no valid response from both primary and secondary". -/
theorem doFallback_delivers_one_outcome (alwaysStandby : Bool)
    (pOut sOut : Option Msg) (tPrim threshold : Nat) (tie secondFirst : Bool) :
    (doFallback alwaysStandby pOut sOut tPrim threshold tie secondFirst).resp =
      firstSome (fallbackSends
        (secondaryLaunches alwaysStandby pOut.isSome tPrim threshold tie)
        pOut sOut secondFirst) ∧
    ((doFallback alwaysStandby pOut sOut tPrim threshold tie secondFirst).err = none ↔
      (firstSome (fallbackSends
        (secondaryLaunches alwaysStandby pOut.isSome tPrim threshold tie)
        pOut sOut secondFirst)).isSome) ∧
    ((doFallback alwaysStandby pOut sOut tPrim threshold tie secondFirst).err =
        some errFailedMsg ↔
      firstSome (fallbackSends
        (secondaryLaunches alwaysStandby pOut.isSome tPrim threshold tie)
        pOut sOut secondFirst) = none) := by
  have hloop : ∀ b : Bool, fallbackLoop 2 (fallbackSends b pOut sOut secondFirst) =
      firstSome (fallbackSends b pOut sOut secondFirst) := by
    intro b
    cases b <;> cases secondFirst <;>
      simp [fallbackSends, fallbackLoop_pair, fallbackLoop_single]
  rw [doFallback]
  simp only [hloop]
  cases hfs : firstSome (fallbackSends
      (secondaryLaunches alwaysStandby pOut.isSome tPrim threshold tie)
      pOut sOut secondFirst) with
  | none => simp
  | some r => simp

/-- C5: with always-standby off, if the primary branch completes
successfully (non-nil response, no error) strictly before the threshold
elapses, the secondary executable is never invoked, and the primary's
response is delivered. -/
theorem fallback_secondary_skipped (pR : Msg) (sOut : Option Msg)
    (tPrim threshold : Nat) (tie secondFirst : Bool) (h : tPrim < threshold) :
    (doFallback false (some pR) sOut tPrim threshold tie secondFirst).secondaryInvoked
      = false ∧
    (doFallback false (some pR) sOut tPrim threshold tie secondFirst).resp = some pR ∧
    (doFallback false (some pR) sOut tPrim threshold tie secondFirst).err = none := by
  have hl : secondaryLaunches false true tPrim threshold tie = false := by
    simp [secondaryLaunches, h]
  simp [doFallback, hl, fallbackSends, fallbackLoop]

theorem fallback_secondary_skipped_witness :
    1 < 2 ∧
    (doFallback false (some (Msg.mk 0 [] [])) none 1 2 true true).secondaryInvoked
      = false :=
  ⟨by decide,
    (fallback_secondary_skipped (Msg.mk 0 [] []) none 1 2 true true (by decide)).1⟩

/-! ## Forward plugin (package `fastforward`)

`Forward.Exec` dispatches the query to every configured upstream in its
own goroutine.  A dispatch that fails — an `Exchange` error, or a
response whose answer section is empty (`handleResponse` turns that into
the error "no answer") — sends its error on the buffered channel `errCh`;
a dispatch that obtains a response with a non-empty answer section calls
`qCtx.SetAnswer(resp.Answer)` and sends nothing.  The parent then does a
single `select` on `errCh`: it returns the first error sent, or nil once
all goroutines have finished and the closed channel yields its zero
value.  Dispatch completions are modelled as a list of events in
completion order.
-/

/-- The outcome of one upstream dispatch, in completion order:
`fails e` is an `Exchange` error `e`, `answers l` is a response whose
answer section is `l`. -/
inductive UEvent where
  | fails (e : String)
  | answers (ans : List RR)
deriving DecidableEq, Repr

/-- The error (if any) a dispatch sends on `errCh`: its `Exchange` error,
or `handleResponse`'s "no answer" error for an empty answer section. -/
def dispatchError : UEvent → Option String
  | UEvent.fails e => some e
  | UEvent.answers [] => some "no answer"
  | UEvent.answers (_ :: _) => none

/-- The value `Forward.Exec` returns (ignoring outer-context
cancellation): the first error sent on `errCh` if any dispatch failed,
nil otherwise (the channel is closed after all dispatches finish, and a
drained closed channel yields nil). -/
def forwardReturn (events : List UEvent) : Option String :=
  (events.filterMap dispatchError).head?

/-- The answer recorded on the query context after all dispatches finish:
each successful dispatch overwrites it via `qCtx.SetAnswer`, so the last
non-empty answer in completion order remains. -/
def recordedAnswer (events : List UEvent) : Option (List RR) :=
  (events.filterMap fun e =>
    match e with
    | UEvent.answers (a :: rest) => some (a :: rest)
    | _ => none).getLast?

/-- C3 fails on the code: with two upstreams where the first to complete
returns a non-empty answer (which is recorded on the query context) and
the second fails, `Forward.Exec` returns the failing upstream's error —
an error caused by another upstream's failure is escalated even though a
dispatch succeeded, because the `select` at the bottom of `Exec` waits on
`errCh` (first error) rather than on a success signal, contradicting the
inline comment "wait for the first successful result or for all requests
to complete". -/
theorem forwardExec_error_despite_answer :
    recordedAnswer [UEvent.answers [RR.plain 1], UEvent.fails "dial timeout"]
      = some [RR.plain 1] ∧
    forwardReturn [UEvent.answers [RR.plain 1], UEvent.fails "dial timeout"]
      = some "dial timeout" ∧
    ¬ (∀ e ∈ [UEvent.answers [RR.plain 1], UEvent.fails "dial timeout"],
        dispatchError e ≠ none) := by
  refine ⟨rfl, rfl, ?_⟩
  intro hall
  exact absurd rfl (hall (UEvent.answers [RR.plain 1]) (List.mem_cons_self _ _))

/-! ## Forward plugin: upstream handle table (`Forward.getUpstream`)

`getUpstream` runs entirely under `f.mu`, so concurrent calls serialize;
a run of the system is a sequence of calls.  Each call is `(addr, ok)`
where `ok` says whether `upstream.NewUpstream` would succeed for this
call.  A freshly created handle is identified by the value of a creation
counter, so distinct creations yield distinct handles.
-/

/-- The upstream table and the creation counter.  `upstreamCache` is the
`map[string]*upstream.Upstream` field of `Forward`. -/
structure FwdState where
  upstreamCache : List (String × Nat)
  nextHandle : Nat
deriving DecidableEq, Repr

/-- Map lookup in `f.upstreamCache`. -/
def findAddr : List (String × Nat) → String → Option Nat
  | [], _ => none
  | (x, h) :: rest, addr => if x = addr then some h else findAddr rest addr

/-- `Forward.getUpstream` (one mutex-protected call): return the cached
handle for the address if present; otherwise call `upstream.NewUpstream`
(outcome given by `newOk`), store the new handle in the table on success
and return an error on failure.  Result: (returned handle if any, whether
a new handle was created, new state). -/
def getUpstream (st : FwdState) (addr : String) (newOk : Bool) :
    Option Nat × Bool × FwdState :=
  match findAddr st.upstreamCache addr with
  | some h => (some h, false, st)
  | none =>
    if newOk then
      (some st.nextHandle, true,
        ⟨st.upstreamCache ++ [(addr, st.nextHandle)], st.nextHandle + 1⟩)
    else (none, false, st)

/-- Run a sequence of `getUpstream` calls, returning the trace
(address, returned handle, created a new handle?) per call. -/
def runTrace (st : FwdState) : List (String × Bool) → List (String × Option Nat × Bool)
  | [] => []
  | (a, ok) :: rest =>
    let r := getUpstream st a ok
    (a, r.1, r.2.1) :: runTrace r.2.2 rest

/-- The empty upstream table (`NewForward`). -/
def initFwd : FwdState := ⟨[], 0⟩

/-- How many calls in the trace created a new handle for address `a`. -/
def createdCount (tr : List (String × Option Nat × Bool)) (a : String) : Nat :=
  (tr.filter fun e => decide (e.1 = a) && e.2.2).length

/-- All handles returned for address `a` along the trace. -/
def handlesFor (tr : List (String × Option Nat × Bool)) (a : String) : List Nat :=
  tr.filterMap fun e => if e.1 = a then e.2.1 else none

theorem createdCount_cons (x : String) (r : Option Nat) (c : Bool)
    (tr : List (String × Option Nat × Bool)) (a : String) :
    createdCount ((x, r, c) :: tr) a =
      (if x = a ∧ c = true then 1 else 0) + createdCount tr a := by
  cases c <;> by_cases hx : x = a <;>
    simp [createdCount, List.filter_cons, hx] <;> omega

theorem findAddr_append_of_ne (l : List (String × Nat)) (b : String) (h : Nat)
    (a : String) (hne : b ≠ a) :
    findAddr (l ++ [(b, h)]) a = findAddr l a := by
  induction l with
  | nil => simp [findAddr, hne]
  | cons p rest ih =>
    obtain ⟨x, y⟩ := p
    by_cases hx : x = a
    · simp [findAddr, hx]
    · simp [findAddr, hx, ih]

theorem findAddr_append_self (l : List (String × Nat)) (a : String) (h : Nat)
    (hnone : findAddr l a = none) :
    findAddr (l ++ [(a, h)]) a = some h := by
  induction l with
  | nil => simp [findAddr]
  | cons p rest ih =>
    obtain ⟨x, y⟩ := p
    by_cases hx : x = a
    · rw [findAddr, if_pos hx] at hnone
      exact absurd hnone (by simp)
    · rw [findAddr, if_neg hx] at hnone
      rw [List.cons_append, findAddr, if_neg hx]
      exact ih hnone

theorem runTrace_cached (calls : List (String × Bool)) (st : FwdState)
    (a : String) (h : Nat) (hc : findAddr st.upstreamCache a = some h) :
    createdCount (runTrace st calls) a = 0 ∧
    ∀ x ∈ handlesFor (runTrace st calls) a, x = h := by
  induction calls generalizing st with
  | nil => simp [runTrace, createdCount, handlesFor]
  | cons c rest ih =>
    obtain ⟨b, ok⟩ := c
    by_cases hba : b = a
    · subst hba
      simp only [runTrace, getUpstream, hc]
      obtain ⟨ih1, ih2⟩ := ih st hc
      constructor
      · simpa [createdCount, List.filter_cons] using ih1
      · intro x hx
        simp only [handlesFor, List.filterMap_cons, if_pos rfl] at hx
        rcases List.mem_cons.mp hx with rfl | hx
        · rfl
        · exact ih2 x hx
    · simp only [runTrace]
      rcases hl : findAddr st.upstreamCache b with _ | hb
      · simp only [getUpstream, hl]
        cases ok with
        | true =>
          have hc2 : findAddr (FwdState.mk (st.upstreamCache ++ [(b, st.nextHandle)])
              (st.nextHandle + 1)).upstreamCache a = some h := by
            show findAddr (st.upstreamCache ++ [(b, st.nextHandle)]) a = some h
            rw [findAddr_append_of_ne _ _ _ _ hba]
            exact hc
          obtain ⟨ih1, ih2⟩ := ih _ hc2
          constructor
          · simpa [createdCount, List.filter_cons, hba] using ih1
          · intro x hx
            simp only [handlesFor, List.filterMap_cons, if_neg hba] at hx
            exact ih2 x hx
        | false =>
          obtain ⟨ih1, ih2⟩ := ih st hc
          constructor
          · simpa [createdCount, List.filter_cons, hba] using ih1
          · intro x hx
            simp only [handlesFor, List.filterMap_cons, if_neg hba] at hx
            exact ih2 x hx
      · simp only [getUpstream, hl]
        obtain ⟨ih1, ih2⟩ := ih st hc
        constructor
        · simpa [createdCount, List.filter_cons, hba] using ih1
        · intro x hx
          simp only [handlesFor, List.filterMap_cons, if_neg hba] at hx
          exact ih2 x hx

theorem runTrace_uncached (calls : List (String × Bool)) (st : FwdState)
    (a : String) (hc : findAddr st.upstreamCache a = none) :
    createdCount (runTrace st calls) a ≤ 1 ∧
    ∀ x ∈ handlesFor (runTrace st calls) a,
      ∀ y ∈ handlesFor (runTrace st calls) a, x = y := by
  induction calls generalizing st with
  | nil => simp [runTrace, createdCount, handlesFor]
  | cons c rest ih
  =>
    obtain ⟨b, ok⟩ := c
    by_cases hba : b = a
    · subst hba
      simp only [runTrace, getUpstream, hc]
      cases ok with
      | true =>
        have hc2 : findAddr (FwdState.mk (st.upstreamCache ++ [(b, st.nextHandle)])
            (st.nextHandle + 1)).upstreamCache b = some st.nextHandle :=
          findAddr_append_self _ _ _ hc
        obtain ⟨h1, h2⟩ := runTrace_cached rest _ b st.nextHandle hc2
        constructor
        · simp [createdCount_cons, h1]
        · intro x hx y hy
          simp only [handlesFor, List.filterMap_cons, if_pos rfl] at hx hy
          rcases List.mem_cons.mp hx with rfl | hx <;>
            rcases List.mem_cons.mp hy with h | hy
          · exact h.symm
          · exact (h2 y hy).symm
          · rw [h2 x hx, h]
          · rw [h2 x hx, h2 y hy]
      | false =>
        obtain ⟨ih1, ih2⟩ := ih st hc
        constructor
        · simpa [createdCount, List.filter_cons] using ih1
        · intro x hx y hy
          simp only [handlesFor, List.filterMap_cons, if_pos rfl] at hx hy
          exact ih2 x hx y hy
    · simp only [runTrace]
      rcases hl : findAddr st.upstreamCache b with _ | hb
      · simp only [getUpstream, hl]
        cases ok with
        | true =>
          have hc2 : findAddr (FwdState.mk (st.upstreamCache ++ [(b, st.nextHandle)])
              (st.nextHandle + 1)).upstreamCache a = none := by
            show findAddr (st.upstreamCache ++ [(b, st.nextHandle)]) a = none
            rw [findAddr_append_of_ne _ _ _ _ hba]
            exact hc
          obtain ⟨ih1, ih2⟩ := ih _ hc2
          constructor
          · simpa [createdCount, List.filter_cons, hba] using ih1
          · intro x hx y hy
            simp only [handlesFor, List.filterMap_cons, if_neg hba] at hx hy
            exact ih2 x hx y hy
        | false =>
          obtain ⟨ih1, ih2⟩ := ih st hc
          constructor
          · simpa [createdCount, List.filter_cons, hba] using ih1
          · intro x hx y hy
            simp only [handlesFor, List.filterMap_cons, if_neg hba] at hx hy
            exact ih2 x hx y hy
      · simp only [getUpstream, hl]
        obtain ⟨ih1, ih2⟩ := ih st hc
        constructor
        · simpa [createdCount, List.filter_cons, hba] using ih1
        · intro x hx y hy
          simp only [handlesFor, List.filterMap_cons, if_neg hba] at hx hy
          exact ih2 x hx y hy

/-- C8: starting from the empty upstream table, along any sequence of
`getUpstream` calls (concurrent calls serialize on `f.mu`, so a run is a
call sequence; `NewUpstream` may succeed or fail per call), at most one
handle is ever created for a given address, and any two calls for the
same address that return a handle return the same handle. -/
theorem getUpstream_unique_handle (calls : List (String × Bool)) (a : String) :
    createdCount (runTrace initFwd calls) a ≤ 1 ∧
    ∀ x ∈ handlesFor (runTrace initFwd calls) a,
      ∀ y ∈ handlesFor (runTrace initFwd calls) a, x = y :=
  runTrace_uncached calls initFwd a rfl

theorem getUpstream_unique_handle_witness :
    (0 : Nat) ∈ handlesFor (runTrace initFwd [("8.8.8.8", true), ("8.8.8.8", true)]) "8.8.8.8" ∧
    createdCount (runTrace initFwd [("8.8.8.8", true), ("8.8.8.8", true)]) "8.8.8.8" ≤ 1 ∧
    (0 : Nat) = 0 := by
  have hmem : (0 : Nat) ∈
      handlesFor (runTrace initFwd [("8.8.8.8", true), ("8.8.8.8", true)]) "8.8.8.8" := by
    decide
  exact ⟨hmem, (getUpstream_unique_handle [("8.8.8.8", true), ("8.8.8.8", true)] "8.8.8.8").1,
    (getUpstream_unique_handle [("8.8.8.8", true), ("8.8.8.8", true)] "8.8.8.8").2
      0 hmem 0 hmem⟩

/-! ## Cache stage: `Cache.Exec` (cache.go lines 180-207) -/

/-- A cache entry (`item`, cache.go lines 65-68): response snapshot and
remaining TTL. -/
structure Item where
  resp : Msg
  ttl : Int
deriving DecidableEq, Repr

/-- `item.Expired` (cache.go lines 70-72): `i.ttl < ttl`. -/
def itemExpired (i : Item) (ttl : Int) : Bool :=
  decide (i.ttl < ttl)

/-- Lookup in the cache backend (an association from 16-byte keys to
entries; `cache.Cache[key, *item]` with exactly one entry per key). -/
def lookupKey : List (List Nat × Item) → List Nat → Option Item
  | [], _ => none
  | (k, it) :: rest, key => if k = key then some it else lookupKey rest key

/-- The cache plugin's observable state: the backend table and the
prometheus counters `Cache.Exec` touches. -/
structure CacheState where
  backend : List (List Nat × Item)
  queryTotal : Nat
  hitTotal : Nat
  lazyHitTotal : Nat
deriving DecidableEq, Repr

/-- Modelled from the spec: `getRespFromCache` sits in the truncated part
of cache.go (the file in src/ ends mid-`getMsgKey`).  Spec §4.1: "If a
non-expired entry exists, serve it immediately ... If the entry exists but
is within a configured lazy window past expiry, serve the stale answer AND
asynchronously trigger a refresh"; an absent entry (or an expired one with
lazy caching off) is a miss.  Freshness is `¬ itemExpired it 0` (positive
remaining TTL). -/
def getRespFromCache (key : List Nat) (backend : List (List Nat × Item))
    (lazyEnabled : Bool) : Option Msg × Bool :=
  match lookupKey backend key with
  | none => (none, false)
  | some it =>
    if itemExpired it 0 = false then (some it.resp, false)
    else if lazyEnabled then (some it.resp, true)
    else (none, false)

/-- Modelled from the spec: `saveRespToCache` sits in the truncated part
of cache.go.  Spec §4.1: "store it keyed by the computed key with a TTL
derived from the response's own TTL (or a configured override)"; the
derived TTL is passed in as `ttlVal`. -/
def saveRespToCache (key : List Nat) (r : Msg) (ttlVal : Int)
    (backend : List (List Nat × Item)) : List (List Nat × Item) :=
  (key, Item.mk r ttlVal) :: backend.filter (fun e => decide (e.1 ≠ key))

/-- `Cache.Exec` (cache.go lines 180-207): bump `queryTotal`; compute the
message key (`getMsgKey` never returns an empty key, so the skip-cache
branch at line 185 is dead); look the key up; on a lazy hit bump
`lazyHitTotal` and trigger `doLazyUpdate`; on any hit bump `hitTotal`,
overwrite the cached response's id with the query's id and set it as the
response; then delegate to `next`, and afterwards store the final response
under the key unless it is pointer-identical to the response served from
cache.  `nextR` is the chain tail's effect on the response;
`nextReplaced` is the pointer comparison `cachedResp != r` at line 202;
`ttlVal` the stored TTL.  Returns (state, final response, lazy update
triggered). -/
def cacheExec (st : CacheState) (q : Msg) (lazyEnabled : Bool)
    (nextR : Option Msg → Option Msg) (nextReplaced : Bool) (ttlVal : Int) :
    CacheState × Option Msg × Bool :=
  let st1 : CacheState := { st with queryTotal := st.queryTotal + 1 }
  let key := getMsgKey q
  let looked := getRespFromCache key st1.backend lazyEnabled
  let st2 : CacheState :=
    if looked.2 then { st1 with lazyHitTotal := st1.lazyHitTotal + 1 } else st1
  let served : Option Msg :=
    match looked.1 with
    | some r => some { r with id := q.id }
    | none => none
  let st3 : CacheState :=
    match looked.1 with
    | some _ => { st2 with hitTotal := st2.hitTotal + 1 }
    | none => st2
  let rFinal := nextR served
  let st4 : CacheState :=
    match rFinal with
    | some r =>
      if nextReplaced then { st3 with backend := saveRespToCache key r ttlVal st3.backend }
      else st3
    | none => st3
  (st4, rFinal, looked.2)

/-- C6: when the backend holds a fresh (non-expired) entry for the
request's key and the chain tail leaves the set response alone,
`Cache.Exec` sets a response equal to the cached snapshot except that its
transaction id is rewritten to the request's id, and increments the hit
counter. -/
theorem cacheExec_fresh_hit (st : CacheState) (q : Msg) (lazyEnabled : Bool)
    (nextReplaced : Bool) (ttlVal : Int) (it : Item)
    (hfound : lookupKey st.backend (getMsgKey q) = some it)
    (hfresh : itemExpired it 0 = false) :
    (cacheExec st q lazyEnabled (fun r => r) nextReplaced ttlVal).2.1 =
      some { it.resp with id := q.id } ∧
    (cacheExec st q lazyEnabled (fun r => r) nextReplaced ttlVal).1.hitTotal =
      st.hitTotal + 1 := by
  have hlook : getRespFromCache (getMsgKey q) st.backend lazyEnabled =
      (some it.resp, false) := by
    rw [getRespFromCache, hfound]
    simp [hfresh]
  cases hnr : nextReplaced <;>
    simp [cacheExec, hlook]

/-- A concrete fresh cache state used as the C6 witness input. -/
def witnessQuery : Msg := Msg.mk 3 [exampleQuestion] []

/-- A concrete snapshot stored under `witnessQuery`'s key. -/
def witnessItem : Item := Item.mk (Msg.mk 9 [exampleQuestion] [RR.plain 5]) 30

theorem cacheExec_fresh_hit_witness :
    lookupKey [(getMsgKey witnessQuery, witnessItem)] (getMsgKey witnessQuery) =
      some witnessItem ∧
    (cacheExec (CacheState.mk [(getMsgKey witnessQuery, witnessItem)] 0 0 0)
      witnessQuery false (fun r => r) false 0).2.1 =
      some { witnessItem.resp with id := witnessQuery.id } := by
  have hfound : lookupKey [(getMsgKey witnessQuery, witnessItem)]
      (getMsgKey witnessQuery) = some witnessItem := by
    rw [lookupKey, if_pos rfl]
  exact ⟨hfound,
    (cacheExec_fresh_hit (CacheState.mk [(getMsgKey witnessQuery, witnessItem)] 0 0 0)
      witnessQuery false false 0 witnessItem hfound (by decide)).1⟩

/-! ## Cache stage: `Cache.doLazyUpdate` (cache.go lines 211-242)

The Go source, per call, for one fixed `msgKey`:
```
var sf singleflight.Group                                 -- line 213
sfPtr, _ := c.lazyUpdateMap.LoadOrStore(msgKey, &sf)      -- line 214
sf = *sfPtr.(*singleflight.Group)                         -- line 215 (STRUCT COPY)
...
go func() { _, _ = sf.Do(msgKey, lazyUpdateFunc) }()      -- lines 239-241
```
A `singleflight.Group` value holds a lazily-initialised call map
`m map[string]*call`; `Group.Do` guarantees only one in-flight execution
per key WITHIN ONE GROUP (x/sync documentation).  Line 215 copies the
group struct by value, so each caller's goroutine runs `Do` on the
caller's own copy; two copies taken while the stored group's map is still
nil share nothing.  The model: a heap of group values (`m` is `none` or a
reference into `flights`, matching Go's nil-or-shared map reference), the
`lazyUpdateMap` entry for the key, each caller's locals (`&sf`, `sfPtr`),
and the number of `lazyUpdateFunc` tasks currently running for the key.
Each source line is an atomic step; a schedule is a step sequence that
respects each caller's program order.
-/

/-- A `singleflight.Group` value: its call-map field, nil (`none`) or a
reference into the call-map heap. -/
structure GroupVal where
  m : Option Nat
deriving DecidableEq, Repr

/-- One `doLazyUpdate` caller's locals: the address of its local group
variable `sf` and the `sfPtr` returned by `LoadOrStore`. -/
structure LazyCaller where
  addr : Option Nat
  ptr : Option Nat
deriving DecidableEq, Repr

/-- The global state of the lazy-update machinery for one `msgKey`. -/
structure LazyState where
  heap : List GroupVal
  flights : List Bool
  table : Option Nat
  tasks : Nat
  callers : List LazyCaller
deriving DecidableEq, Repr

/-- One atomic step of caller `i`, in the caller's program order:
`alloc` (line 213) allocates the zero group, `loadOrStore` (line 214),
`copyGroup` (line 215) copies the pointee group value into the caller's
local group, `sfDo` (lines 239-241) runs `Do(msgKey, ...)` on the local
group: it lazily creates the group's call map, joins if the key is
registered there, otherwise registers the key and starts a task. -/
inductive LazyStep where
  | alloc (i : Nat)
  | loadOrStore (i : Nat)
  | copyGroup (i : Nat)
  | sfDo (i : Nat)
deriving DecidableEq, Repr

/-- The transition function for one step. -/
def lazyStep (s : LazyState) : LazyStep → LazyState
  | LazyStep.alloc i =>
    let c := s.callers.getD i (LazyCaller.mk none none)
    { s with heap := s.heap ++ [GroupVal.mk none],
             callers := s.callers.set i { c with addr := some s.heap.length } }
  | LazyStep.loadOrStore i =>
    let c := s.callers.getD i (LazyCaller.mk none none)
    match s.table with
    | some p => { s with callers := s.callers.set i { c with ptr := some p } }
    | none =>
      { s with table := c.addr, callers := s.callers.set i { c with ptr := c.addr } }
  | LazyStep.copyGroup i =>
    let c := s.callers.getD i (LazyCaller.mk none none)
    match c.addr, c.ptr with
    | some a, some p => { s with heap := s.heap.set a (s.heap.getD p (GroupVal.mk none)) }
    | _, _ => s
  | LazyStep.sfDo i =>
    let c := s.callers.getD i (LazyCaller.mk none none)
    match c.addr with
    | none => s
    | some a =>
      match (s.heap.getD a (GroupVal.mk none)).m with
      | none =>
        { s with heap := s.heap.set a (GroupVal.mk (some s.flights.length)),
                 flights := s.flights ++ [true],
                 tasks := s.tasks + 1 }
      | some mr =>
        if s.flights.getD mr false then s
        else { s with flights := s.flights.set mr true, tasks := s.tasks + 1 }

/-- Two callers, nothing allocated, no refresh running. -/
def lazyInit : LazyState :=
  LazyState.mk [] [] none 0 [LazyCaller.mk none none, LazyCaller.mk none none]

/-- Run a schedule from the initial state. -/
def lazyRun (steps : List LazyStep) : LazyState :=
  steps.foldl lazyStep lazyInit

/-- The racy schedule: caller 1 copies the stored group value (line 215)
before caller 0's goroutine has run `Do`, i.e. while the stored group's
call map is still nil.  Program order within each caller is respected. -/
def lazyRaceSchedule : List LazyStep :=
  [LazyStep.alloc 0, LazyStep.loadOrStore 0, LazyStep.alloc 1, LazyStep.loadOrStore 1,
   LazyStep.copyGroup 0, LazyStep.copyGroup 1, LazyStep.sfDo 0, LazyStep.sfDo 1]

/-- The benign schedule: caller 1 runs entirely after caller 0's `Do`
initialised the stored group's call map, so the copy shares that map and
`Do` joins the in-flight call. -/
def lazyJoinSchedule : List LazyStep :=
  [LazyStep.alloc 0, LazyStep.loadOrStore 0, LazyStep.copyGroup 0, LazyStep.sfDo 0,
   LazyStep.alloc 1, LazyStep.loadOrStore 1, LazyStep.copyGroup 1, LazyStep.sfDo 1]

/-- C2 fails on the code: under the racy (but program-order-valid)
interleaving, both callers' `sf.Do(msgKey, ...)` run on private copies of
the group whose call map was still nil when copied, so BOTH start a
background refresh task for the same key — two refresh tasks are in
flight simultaneously, violating the at-most-one-per-key invariant the
function's own doc comment promises ("It has an inner singleflight.Group
to de-duplicate same msgKey").  Under the benign schedule the copy shares
the already-initialised map and the second caller joins (one task),
showing the model does deduplicate when the map reference is actually
shared. -/
theorem doLazyUpdate_duplicate_refresh :
    (lazyRun lazyRaceSchedule).tasks = 2 ∧ (lazyRun lazyJoinSchedule).tasks = 1 := by
  constructor <;> rfl

/-! ## Redirect stage (`Redirect.Exec`, redirect.go lines 114-162)

The memo cache (`getCache`/`setCache`) memoises the matcher's results per
name, so the name→target resolution at lines 121-127 is modelled as one
lookup function `lookupRedirect`.  The chain tail `next` is a function
from the (rewritten) request to an optional response. -/

/-- The restore loop at redirect.go lines 141-145: every question entry of
the response whose name equals the redirect target gets the original
name back. -/
def renameQuestion (target org : List Char) (qs : List Question) : List Question :=
  qs.map fun qq => if qq.name = target then { qq with name := org } else qq

/-- `Redirect.Exec`: pass through unless the request has exactly one
question of class INET; resolve the name (memo cache, then matcher); on a
match rewrite the question name, run `next`, restore the request's
question name (the deferred assignment at lines 134-136), and if a
response was produced restore its question names and prepend one
synthetic CNAME record `original → rewritten` (TTL 1, class INET).
Returns (request after the call, response). -/
def redirectExec (lookupRedirect : List Char → Option (List Char))
    (next : Msg → Option Msg) (q : Msg) : Msg × Option Msg :=
  match q.question with
  | [qu] =>
    if qu.qclass = 1 then
      match lookupRedirect qu.name with
      | some target =>
        let resp := next { q with question := [{ qu with name := target }] }
        match resp with
        | none => (q, none)
        | some rm =>
          (q, some { rm with
            question := renameQuestion target qu.name rm.question,
            answer := RR.cname qu.name 1 1 target :: rm.answer })
      | none => (q, next q)
    else (q, next q)
  | _ => (q, next q)

theorem renameQuestion_all (target org : List Char) (qs : List Question)
    (h : ∀ qq ∈ qs, qq.name = target) :
    (∀ qq ∈ renameQuestion target org qs, qq.name = org) ∧
    (renameQuestion target org qs).length = qs.length := by
  constructor
  · intro qq hqq
    rw [renameQuestion] at hqq
    obtain ⟨p, hp, rfl⟩ := List.mem_map.mp hqq
    rw [if_pos (h p hp)]
  · exact List.length_map _ _

/-- C7: when the redirect stage rewrites the question name `org` to
`target` and `next` produces a response (whose question entries carry the
rewritten name), the request's question is unchanged after the call, and
the outgoing response has all its question names restored to `org`, keeps
its id, and its answer section is exactly one prepended CNAME record
(owner `org`, target `target`, TTL 1, class INET) followed by the
original answers. -/
theorem redirectExec_round_trip (lookupRedirect : List Char → Option (List Char))
    (next : Msg → Option Msg) (q : Msg) (qu : Question) (target : List Char) (rm : Msg)
    (hq : q.question = [qu]) (hclass : qu.qclass = 1)
    (hmatch : lookupRedirect qu.name = some target)
    (hnext : next { q with question := [{ qu with name := target }] } = some rm)
    (hrq : ∀ qq ∈ rm.question, qq.name = target) :
    (redirectExec lookupRedirect next q).1 = q ∧
    (redirectExec lookupRedirect next q).2 = some { rm with
      question := renameQuestion target qu.name rm.question,
      answer := RR.cname qu.name 1 1 target :: rm.answer } ∧
    (∀ qq ∈ renameQuestion target qu.name rm.question, qq.name = qu.name) ∧
    (renameQuestion target qu.name rm.question).length = rm.question.length := by
  have hred : redirectExec lookupRedirect next q = (q, some { rm with
      question := renameQuestion target qu.name rm.question,
      answer := RR.cname qu.name 1 1 target :: rm.answer }) := by
    rw [redirectExec]
    split
    · rename_i qu2 hq2
      rw [hq] at hq2
      have hqu : qu2 = qu := (List.cons.injEq _ _ _ _ ▸ hq2).1.symm
      subst hqu
      rw [if_pos hclass, hmatch]
      simp only [hnext]
    · rename_i hbad
      exact absurd hq (hbad qu)
  refine ⟨by rw [hred], by rw [hred], ?_, (renameQuestion_all target qu.name rm.question hrq).2⟩
  exact (renameQuestion_all target qu.name rm.question hrq).1

/-- Concrete witness data for C7. -/
def orgName : List Char := ['a', '.', 'c', 'o', 'm', '.']

/-- The rewrite target of the C7 witness. -/
def tgtName : List Char := ['b', '.', 'c', 'o', 'm', '.']

/-- The witness resolution function: `a.com. → b.com.`. -/
def redirectLookupW : List Char → Option (List Char) :=
  fun n => if n = orgName then some tgtName else none

/-- The witness response `next` produces for the rewritten name. -/
def redirectRespW : Msg := Msg.mk 7 [Question.mk tgtName 1 1] [RR.plain 3]

/-- The witness chain tail. -/
def redirectNextW : Msg → Option Msg := fun _ => some redirectRespW

/-- The witness request. -/
def redirectReqW : Msg := Msg.mk 7 [Question.mk orgName 1 1] []

theorem redirectExec_round_trip_witness :
    redirectLookupW orgName = some tgtName ∧
    (redirectExec redirectLookupW redirectNextW redirectReqW).1 = redirectReqW :=
  ⟨rfl,
    (redirectExec_round_trip redirectLookupW redirectNextW redirectReqW
      (Question.mk orgName 1 1) tgtName redirectRespW rfl rfl rfl rfl
      (by decide)).1⟩

end Mosdns
